import Mathlib

/-!
Verification of the mcpv server manager (Go) against its specification.

The development shallowly embeds the relevant functions of
`internal/mcpv/manage.go`, `internal/mcpv/dynamic_agent_config.go` and
`internal/mcpv/agent_registry.go`:

* pure string manipulation (`ParseServerSpec`, the Cargo.toml scan) is
  translated to functions over `List Char` / `String`;
* filesystem-dependent behaviour (marker files, binaries on disk, config
  files) is made explicit: each operation takes the relevant piece of
  filesystem state as an argument and returns the updated state;
* fallible Go code returning `error` is modelled with `Except`;
* Go `map[string]…` values are modelled as association lists; a lookup
  returns the first binding, mirroring the unique-key invariant of Go maps,
  and the (randomised) iteration order of a Go map is passed explicitly as
  a permutation argument where the code ranges over a map.
-/

set_option autoImplicit false

namespace Mcpv

/-! ## A model of parsed JSON values (`map[string]interface{}` documents) -/

/-- JSON values as produced by `encoding/json.Unmarshal` into `interface{}`.
Numbers are represented abstractly by an integer index; none of the verified
code computes with numeric values. -/
inductive JVal where
  | jnull : JVal
  | jbool : Bool → JVal
  | jnum : Int → JVal
  | jstr : String → JVal
  | jarr : List JVal → JVal
  | jobj : List (String × JVal) → JVal
deriving Repr

/-- Lookup in a JSON object / Go map, returning the first binding. -/
def getField : List (String × JVal) → String → Option JVal
  | [], _ => none
  | (k, v) :: fs, key => if k = key then some v else getField fs key

/-- Go map assignment `m[key] = v`: replace the binding if present,
otherwise add it. -/
def setField : List (String × JVal) → String → JVal → List (String × JVal)
  | [], key, v => [(key, v)]
  | (k, w) :: fs, key, v =>
    if k = key then (k, v) :: fs else (k, w) :: setField fs key v

/-- Go `delete(m, key)`: remove every binding of `key` (on the unique-key
association lists that model Go maps this removes the single binding). -/
def delField : List (String × JVal) → String → List (String × JVal)
  | [], _ => []
  | (k, v) :: fs, key =>
    if k = key then delField fs key else (k, v) :: delField fs key

theorem getField_setField (fs : List (String × JVal)) (key k : String) (v : JVal) :
    getField (setField fs key v) k =
      if k = key then some v else getField fs k := by
  induction fs with
  | nil =>
    by_cases h : k = key
    · simp [setField, getField, h]
    · have h' : ¬ key = k := fun hh => h hh.symm
      simp [setField, getField, h, h']
  | cons p fs ih =>
    obtain ⟨k', w⟩ := p
    by_cases h1 : k' = key
    · subst h1
      by_cases h2 : k' = k
      · subst h2
        simp [setField, getField]
      · have h2' : ¬ k = k' := fun hh => h2 hh.symm
        simp [setField, getField, h2, h2']
    · by_cases h2 : k' = k
      · subst h2
        have h1' : ¬ k' = key := h1
        simp [setField, getField, h1', fun hh => h1' hh]
      · simp [setField, getField, h1, h2, ih]

theorem getField_delField (fs : List (String × JVal)) (key k : String) :
    getField (delField fs key) k =
      if k = key then none else getField fs k := by
  induction fs with
  | nil => simp [delField, getField]
  | cons p fs ih =>
    obtain ⟨k', w⟩ := p
    by_cases h1 : k' = key
    · subst h1
      by_cases h2 : k = k'
      · subst h2
        simp [delField, getField, ih]
      · have h2' : ¬ k' = k := fun hh => h2 hh.symm
        simp [delField, getField, h2, h2', ih]
    · by_cases h2 : k' = k
      · subst h2
        simp [delField, getField, h1, ih, fun hh => h1 hh]
      · simp [delField, getField, h1, h2, ih]

/-! ## Character-level string helpers (Go `strings` package) -/

/-- Go `strings.Split(s, sep)` for a one-character separator, over the
character list of the string. -/
def splitChar (c : Char) : List Char → List (List Char)
  | [] => [[]]
  | x :: xs =>
    if x = c then [] :: splitChar c xs
    else
      match splitChar c xs with
      | [] => [[x]]
      | h :: t => (x :: h) :: t

theorem splitChar_ne_nil (c : Char) (l : List Char) : splitChar c l ≠ [] := by
  cases l with
  | nil => simp [splitChar]
  | cons x xs =>
    by_cases h : x = c
    · simp [splitChar, h]
    · simp only [splitChar, if_neg h]
      cases hs : splitChar c xs <;> simp

theorem splitChar_head (c : Char) (l : List Char) :
    (splitChar c l).headD [] = l.takeWhile (fun a => a ≠ c) := by
  induction l with
  | nil => rfl
  | cons x xs ih =>
    by_cases h : x = c
    · subst h
      simp [splitChar]
    · rcases hs : splitChar c xs with _ | ⟨s, t⟩
      · exact absurd hs (splitChar_ne_nil c xs)
      · rw [hs] at ih
        simp only [List.headD] at ih
        simp only [splitChar, if_neg h, hs, List.headD]
        rw [List.takeWhile_cons_of_pos (by simpa using h), ← ih]

theorem splitChar_second (c : Char) (l : List Char) :
    (splitChar c l).getD 1 [] =
      ((l.dropWhile (fun a => a ≠ c)).drop 1).takeWhile (fun a => a ≠ c) := by
  induction l with
  | nil => rfl
  | cons x xs ih =>
    by_cases h : x = c
    · subst h
      have hh := splitChar_head x xs
      rcases hs : splitChar x xs with _ | ⟨s, t⟩
      · exact absurd hs (splitChar_ne_nil x xs)
      · rw [hs] at hh
        simp only [List.headD] at hh
        simp only [splitChar, if_pos rfl, hs]
        rw [List.dropWhile_cons_of_neg (by simp)]
        simpa using hh
    · rcases hs : splitChar c xs with _ | ⟨s, t⟩
      · exact absurd hs (splitChar_ne_nil c xs)
      · rw [hs] at ih
        simp only [splitChar, if_neg h, hs]
        rw [List.dropWhile_cons_of_pos (by simpa using h)]
        rw [← ih]
        rfl

/-! ## `ParseServerSpec` (manage.go): `"server@1.0.0"` style specifications -/

/-- Embedding of `ParseServerSpec` from `manage.go`:
`parts := strings.Split(spec, "@"); name = parts[0];
if len(parts) > 1 { version = parts[1] }`. -/
def ParseServerSpec (spec : String) : String × String :=
  (((splitChar '@' spec.toList).map String.mk).headD "",
   ((splitChar '@' spec.toList).map String.mk).getD 1 "")

theorem ParseServerSpec_name (s : String) :
    (ParseServerSpec s).1 =
      String.mk (s.toList.takeWhile (fun a => a ≠ '@')) := by
  unfold ParseServerSpec
  have h1 := splitChar_head '@' s.toList
  rcases hs : splitChar '@' s.toList with _ | ⟨a, t⟩
  · exact absurd hs (splitChar_ne_nil '@' s.toList)
  · rw [hs] at h1
    simp only [List.headD] at h1
    simp only [List.map_cons, List.headD]
    exact congrArg String.mk h1

theorem ParseServerSpec_version (s : String) :
    (ParseServerSpec s).2 =
      String.mk (((s.toList.dropWhile (fun a => a ≠ '@')).drop 1).takeWhile
        (fun a => a ≠ '@')) := by
  unfold ParseServerSpec
  have h2 := splitChar_second '@' s.toList
  rcases hs : splitChar '@' s.toList with _ | ⟨a, t⟩
  · exact absurd hs (splitChar_ne_nil '@' s.toList)
  · rw [hs] at h2
    cases t with
    | nil =>
      have hl : ([a] : List (List Char)).getD 1 [] = [] := rfl
      rw [hl] at h2
      rw [← h2]
      rfl
    | cons b t' =>
      have hl : ((a :: b :: t') : List (List Char)).getD 1 [] = b := rfl
      rw [hl] at h2
      rw [← h2]
      rfl

/-- C10: `ParseServerSpec` returns the text before the first `@` as the name
(the whole string when there is no `@`, the empty string when the string
starts with `@`) and the text strictly between the first and second `@` as
the version (empty when there is no `@`); everything after a second `@` is
dropped, so `"a@b@c"` yields name `"a"` and version `"b"`. -/
theorem C10_parseServerSpec (s : String) :
    ParseServerSpec s =
      (String.mk (s.toList.takeWhile (fun a => a ≠ '@')),
       String.mk (((s.toList.dropWhile (fun a => a ≠ '@')).drop 1).takeWhile
         (fun a => a ≠ '@'))) :=
  Prod.ext (ParseServerSpec_name s) (ParseServerSpec_version s)

/-- Concrete checks for C10 at the inputs named by the claim. -/
example : ParseServerSpec "a@b@c" = ("a", "b") := by decide

example : ParseServerSpec "@x" = ("", "x") := by decide

example : ParseServerSpec "plain" = ("plain", "") := by decide

/-! ## The fetched source tree and execution resolution (manage.go)

A `Tree` records the facts about the install directory that
`installDependencies`, `buildServer`, `hasNpmScript` and
`determineExecution` observe: which marker files exist, the parsed
`package.json` (`none` when reading or parsing fails; `encoding/json`
only accepts a top-level object into `map[string]interface{}`), the lines
of `Cargo.toml` (`none` when reading fails), whether the built go binary
`server` exists, and the names under `target/release/` for which a built
rust binary exists. -/

structure Tree where
  hasPackageJson : Bool
  pkgJson : Option (List (String × JVal))
  hasRequirements : Bool
  hasMainPy : Bool
  hasDunderMainPy : Bool
  hasGoMod : Bool
  hasServerBinary : Bool
  hasCargoToml : Bool
  cargoLines : Option (List String)
  releaseBinaries : List String

/-- Model of `filepath.Join` on two already-clean path segments. -/
def joinPath (a b : String) : String := a ++ "/" ++ b

/-- Model of `filepath.Base` on clean non-empty paths: the last
`/`-separated component. -/
def baseName (p : String) : String :=
  String.mk ((splitChar '/' p.toList).getLastD [])

/-- Go `strings.TrimSpace` over the character list (`Char.isWhitespace`
standing in for Unicode white space). -/
def goTrimSpace (s : String) : String :=
  String.mk (((s.toList.dropWhile Char.isWhitespace).reverse.dropWhile
    Char.isWhitespace).reverse)

/-- Go `strings.Trim(s, "\"")`: strip leading and trailing quote characters. -/
def goTrimQuotes (s : String) : String :=
  String.mk (((s.toList.dropWhile (fun a => a = '"')).reverse.dropWhile
    (fun a => a = '"')).reverse)

/-- Errors of `determineExecution`; read/parse errors propagated from
`package.json` are collapsed into one constructor, the final
"could not determine execution method for server" error is `noMethod`. -/
inductive ExecErr where
  | pkgError : ExecErr
  | noMethod : ExecErr
deriving DecidableEq, Repr

/-- The `(command, args, env)` triple returned by `determineExecution`. -/
structure ExecResult where
  command : String
  args : List String
  env : List (String × String)
deriving DecidableEq, Repr

/-- The string value of a map entry, for the `binPath.(string)` assertion
inside the `range bin` loop. -/
def strVal (e : String × JVal) : Option String :=
  match e.2 with
  | .jstr s => some s
  | _ => none

/-- The first string-typed value met when ranging over the `bin` map in the
given iteration order: the Go loop returns on the first entry whose value
is a string and skips the rest. -/
def firstStrVal (l : List (String × JVal)) : Option String :=
  (l.filterMap strVal).head?

/-- The entries of the manifest's `bin` object (empty when `package.json`
did not parse, has no `bin` key, or `bin` is not an object). An actual run
iterates these entries in an order Go randomizes. -/
def binEntries (t : Tree) : List (String × JVal) :=
  match t.pkgJson with
  | some fs =>
    match getField fs "bin" with
    | some (.jobj bs) => bs
    | _ => []
  | none => []

/-- One line of the Cargo.toml scan: after `strings.TrimSpace`, a line
beginning with `name = ` yields the remainder with quotes trimmed
(`strings.Trim(strings.TrimPrefix(…, "name = "), "\"")`). -/
def cargoNameOfLine (line : String) : Option String :=
  let tl := goTrimSpace line
  if ("name = ".toList).isPrefixOf tl.toList then
    some (goTrimQuotes (String.mk (tl.toList.drop 7)))
  else none

/-- The `range lines` loop of the rust branch of `determineExecution`:
for each line carrying a `name = ` binding, return the release binary
path if that binary exists, otherwise keep scanning. -/
def rustScan (serverDir : String) (bins : List String) : List String → Option ExecResult
  | [] => none
  | line :: rest =>
    match cargoNameOfLine line with
    | some nm =>
      if bins.contains nm then
        some ⟨joinPath (joinPath (joinPath serverDir "target") "release") nm, [], []⟩
      else rustScan serverDir bins rest
    | none => rustScan serverDir bins rest

/-- Embedding of `hasNpmScript` (manage.go): read and parse `package.json`,
require an object-valued `scripts` field holding the given key; any failure
answers `false`. -/
def hasNpmScript (t : Tree) (script : String) : Bool :=
  match t.pkgJson with
  | some fs =>
    match getField fs "scripts" with
    | some (.jobj ss) => (getField ss script).isSome
    | _ => false
  | none => false

/-- Embedding of `determineExecution` (manage.go). `binIter` is the order
in which a run of the compiled program happens to range over the manifest's
`bin` map (Go randomizes it); a run with `bin` present iterates
`binEntries t` in that order. The returned `env` is the freshly made empty
map. -/
def determineExecution (serverDir : String) (t : Tree)
    (binIter : List (String × JVal)) : Except ExecErr ExecResult :=
  if t.hasPackageJson then
    match t.pkgJson with
    | none => .error .pkgError
    | some fs =>
      match (match getField fs "bin" with
             | some (.jobj _) => firstStrVal binIter
             | _ => none) with
      | some rel => .ok ⟨"node", [joinPath serverDir rel], []⟩
      | none =>
        match getField fs "main" with
        | some (.jstr mainRel) => .ok ⟨"node", [joinPath serverDir mainRel], []⟩
        | _ => .ok ⟨"node", [joinPath serverDir "index.js"], []⟩
  else if t.hasRequirements then
    if t.hasMainPy then .ok ⟨"python", [joinPath serverDir "main.py"], []⟩
    else if t.hasDunderMainPy then
      .ok ⟨"python", [joinPath serverDir "__main__.py"], []⟩
    else .ok ⟨"python", ["-m", baseName serverDir], []⟩
  else if t.hasGoMod && t.hasServerBinary then
    .ok ⟨joinPath serverDir "server", [], []⟩
  else if t.hasCargoToml then
    match t.cargoLines with
    | some lines =>
      match rustScan serverDir t.releaseBinaries lines with
      | some r => .ok r
      | none => .error .noMethod
    | none => .error .noMethod
  else .error .noMethod

/-- Embedding of `installDependencies` (manage.go): the external command it
selects for the tree, `none` when no dependency step runs. -/
def installDependencies (t : Tree) : Option (String × List String) :=
  if t.hasPackageJson then some ("npm", ["install"])
  else if t.hasRequirements then some ("pip", ["install", "-r", "requirements.txt"])
  else if t.hasGoMod then some ("go", ["mod", "download"])
  else none

/-- Embedding of `buildServer` (manage.go): the external build command it
selects for the tree, `none` when no build step runs. -/
def buildServer (t : Tree) : Option (String × List String) :=
  if t.hasPackageJson then
    if hasNpmScript t "build" then some ("npm", ["run", "build"]) else none
  else if t.hasRequirements then none
  else if t.hasGoMod then some ("go", ["build", "-o", "server", "."])
  else if t.hasCargoToml then some ("cargo", ["build", "--release"])
  else none

/-- The ecosystems of §4.2 of the specification. -/
inductive Ecosystem where
  | node : Ecosystem
  | python : Ecosystem
  | go : Ecosystem
  | rust : Ecosystem
  | unknown : Ecosystem
deriving DecidableEq, Repr

/-- Modelled from the spec (§4.2 ProjectTypeDetector): fixed-priority
marker-file test, first match wins. -/
def detectEcosystem (t : Tree) : Ecosystem :=
  if t.hasPackageJson then .node
  else if t.hasRequirements then .python
  else if t.hasGoMod then .go
  else if t.hasCargoToml then .rust
  else .unknown

/-- The dependency command §6's table prescribes per ecosystem. -/
def depCommandFor : Ecosystem → Option (String × List String)
  | .node => some ("npm", ["install"])
  | .python => some ("pip", ["install", "-r", "requirements.txt"])
  | .go => some ("go", ["mod", "download"])
  | .rust => none
  | .unknown => none

/-- The build command §6's table prescribes per ecosystem, given whether
the manifest declares a `build` script. -/
def buildCommandFor (e : Ecosystem) (hasBuildScript : Bool) : Option (String × List String) :=
  match e with
  | .node => if hasBuildScript then some ("npm", ["run", "build"]) else none
  | .python => none
  | .go => some ("go", ["build", "-o", "server", "."])
  | .rust => some ("cargo", ["build", "--release"])
  | .unknown => none

/-! ## C2: the rust branch of execution resolution -/

theorem rustScan_eq_find (serverDir : String) (bins : List String) (lines : List String) :
    rustScan serverDir bins lines =
      match (lines.filterMap cargoNameOfLine).find? (fun n => bins.contains n) with
      | some n =>
          some ⟨joinPath (joinPath (joinPath serverDir "target") "release") n, [], []⟩
      | none => none := by
  induction lines with
  | nil => rfl
  | cons line rest ih =>
    cases hn : cargoNameOfLine line with
    | none =>
      have hfm : (line :: rest).filterMap cargoNameOfLine =
          rest.filterMap cargoNameOfLine := by
        rw [List.filterMap_cons, hn]
      simp only [rustScan, hn]
      rw [hfm, ih]
    | some nm =>
      have hfm : (line :: rest).filterMap cargoNameOfLine =
          nm :: rest.filterMap cargoNameOfLine := by
        rw [List.filterMap_cons, hn]
      cases hcb : bins.contains nm with
      | true =>
        have hf : (nm :: rest.filterMap cargoNameOfLine).find?
            (fun n => bins.contains n) = some nm :=
          List.find?_cons_of_pos _ hcb
        simp only [rustScan, hn]
        rw [hfm, hf, if_pos hcb]
      | false =>
        have hnp : ¬ bins.contains nm = true := by
          intro hmem
          rw [hcb] at hmem
          exact Bool.false_ne_true hmem
        have hf : (nm :: rest.filterMap cargoNameOfLine).find?
            (fun n => bins.contains n) =
            (rest.filterMap cargoNameOfLine).find? (fun n => bins.contains n) :=
          List.find?_cons_of_neg _ hnp
        simp only [rustScan, hn]
        rw [hfm, hf, if_neg hnp, ih]

/-- A tree holding only a `Cargo.toml` whose scan meets two `name = `
lines; only the second name's release binary exists on disk. -/
def treeRustTwoNames : Tree where
  hasPackageJson := false
  pkgJson := none
  hasRequirements := false
  hasMainPy := false
  hasDunderMainPy := false
  hasGoMod := false
  hasServerBinary := false
  hasCargoToml := true
  cargoLines := some ["name = \"alpha\"", "name = \"beta\""]
  releaseBinaries := ["beta"]

/-- C2 counterexample: on `treeRustTwoNames` the first line beginning with
`name = ` yields the package name `alpha`, whose release binary is absent,
so by the claim resolution must fail; the code instead keeps scanning and
succeeds with the release binary of `beta`. -/
theorem C2_counterexample :
    (((["name = \"alpha\"", "name = \"beta\""]).filterMap cargoNameOfLine).head? =
        some "alpha") ∧
    treeRustTwoNames.releaseBinaries.contains "alpha" = false ∧
    determineExecution "/data/srv/1.0.0" treeRustTwoNames [] =
      .ok ⟨"/data/srv/1.0.0/target/release/beta", [], []⟩ :=
  ⟨rfl, rfl, rfl⟩

/-- C2 (amended): on a tree resolved by the rust strategy, resolution scans
`Cargo.toml` line by line and returns `target/release/<name>` for the first
`name = ` line whose stripped name has an existing release binary; it fails
only when no `name = ` line yields an existing binary. -/
theorem C2_rust_resolution (serverDir : String) (t : Tree)
    (binIter : List (String × JVal)) (lines : List String)
    (hp : t.hasPackageJson = false) (hr : t.hasRequirements = false)
    (hg : t.hasGoMod = false ∨ t.hasServerBinary = false)
    (hc : t.hasCargoToml = true) (hl : t.cargoLines = some lines) :
    determineExecution serverDir t binIter =
      match (lines.filterMap cargoNameOfLine).find?
          (fun n => t.releaseBinaries.contains n) with
      | some n =>
          .ok ⟨joinPath (joinPath (joinPath serverDir "target") "release") n, [], []⟩
      | none => .error .noMethod := by
  have hgo : (t.hasGoMod && t.hasServerBinary) = false := by
    rcases hg with h | h <;> simp [h]
  simp only [determineExecution, hp, hr, hgo, hc, hl, Bool.false_eq_true,
    if_false, if_true]
  rw [rustScan_eq_find]
  cases (lines.filterMap cargoNameOfLine).find?
      (fun n => t.releaseBinaries.contains n) <;> rfl

/-- Witness for C2 (amended) at `treeRustTwoNames`. -/
theorem C2_rust_resolution_witness :
    determineExecution "/data/srv/1.0.0" treeRustTwoNames [] =
      match (((["name = \"alpha\"", "name = \"beta\""]).filterMap cargoNameOfLine).find?
          (fun n => treeRustTwoNames.releaseBinaries.contains n)) with
      | some n =>
          .ok ⟨joinPath (joinPath (joinPath "/data/srv/1.0.0" "target") "release") n,
            [], []⟩
      | none => .error .noMethod :=
  C2_rust_resolution "/data/srv/1.0.0" treeRustTwoNames [] _ rfl rfl
    (Or.inl rfl) rfl rfl

/-! ## C3: determinism of execution resolution -/

theorem head_filterMap_of_perm {α β : Type} (f : α → Option β) {l₁ l₂ : List α}
    (hp : l₁.Perm l₂) (hlen : (l₂.filterMap f).length ≤ 1) :
    (l₁.filterMap f).head? = (l₂.filterMap f).head? := by
  have hperm : (l₁.filterMap f).Perm (l₂.filterMap f) := hp.filterMap f
  cases hfm : l₂.filterMap f with
  | nil =>
    rw [hfm] at hperm
    rw [hperm.eq_nil]
  | cons b bs =>
    rw [hfm] at hperm hlen
    cases bs with
    | nil => rw [List.perm_singleton.mp hperm]
    | cons b' bs' => simp at hlen

/-- A node tree whose manifest declares a two-entry `bin` mapping with two
distinct script paths. -/
def treeNodeBin : Tree where
  hasPackageJson := true
  pkgJson := some [("bin", .jobj [("a", .jstr "x.js"), ("b", .jstr "y.js")])]
  hasRequirements := false
  hasMainPy := false
  hasDunderMainPy := false
  hasGoMod := false
  hasServerBinary := false
  hasCargoToml := false
  cargoLines := none
  releaseBinaries := []

/-- C3 counterexample: two runs over the identical tree `treeNodeBin` whose
`bin` map Go happens to iterate in opposite orders return different args,
so resolution over identical tree contents is not deterministic. -/
theorem C3_counterexample :
    ([(("a" : String), JVal.jstr "x.js"), ("b", JVal.jstr "y.js")]).Perm
        (binEntries treeNodeBin) ∧
    ([(("b" : String), JVal.jstr "y.js"), ("a", JVal.jstr "x.js")]).Perm
        (binEntries treeNodeBin) ∧
    determineExecution "/d" treeNodeBin
        [("a", JVal.jstr "x.js"), ("b", JVal.jstr "y.js")] ≠
      determineExecution "/d" treeNodeBin
        [("b", JVal.jstr "y.js"), ("a", JVal.jstr "x.js")] := by
  refine ⟨List.Perm.refl _, ?_, ?_⟩
  · show ([(("b" : String), JVal.jstr "y.js"), ("a", JVal.jstr "x.js")]).Perm
      [("a", JVal.jstr "x.js"), ("b", JVal.jstr "y.js")]
    exact List.Perm.swap _ _ _
  · intro h
    have h1 : determineExecution "/d" treeNodeBin
        [("a", JVal.jstr "x.js"), ("b", JVal.jstr "y.js")] =
        .ok ⟨"node", ["/d/x.js"], []⟩ := rfl
    have h2 : determineExecution "/d" treeNodeBin
        [("b", JVal.jstr "y.js"), ("a", JVal.jstr "x.js")] =
        .ok ⟨"node", ["/d/y.js"], []⟩ := rfl
    rw [h1, h2] at h
    simp at h

/-- C3 (amended): resolution is a pure function of the tree contents and of
the order in which the run iterates the manifest's `bin` map; whenever that
map carries at most one string-valued entry (in particular whenever `bin`
is absent) any two runs over identical tree contents agree. With several
distinct string-valued `bin` entries the result depends on Go's randomized
map iteration order. -/
theorem C3_resolution_deterministic (serverDir : String) (t : Tree)
    (ord1 ord2 : List (String × JVal))
    (h1 : ord1.Perm (binEntries t)) (h2 : ord2.Perm (binEntries t))
    (hone : ((binEntries t).filterMap strVal).length ≤ 1) :
    determineExecution serverDir t ord1 = determineExecution serverDir t ord2 := by
  have e1 : firstStrVal ord1 = firstStrVal (binEntries t) :=
    head_filterMap_of_perm strVal h1 hone
  have e2 : firstStrVal ord2 = firstStrVal (binEntries t) :=
    head_filterMap_of_perm strVal h2 hone
  have e : firstStrVal ord1 = firstStrVal ord2 := e1.trans e2.symm
  simp only [determineExecution, e]

/-- A node tree with a single-entry `bin` mapping. -/
def treeNodeBinOne : Tree where
  hasPackageJson := true
  pkgJson := some [("bin", .jobj [("a", .jstr "x.js")])]
  hasRequirements := false
  hasMainPy := false
  hasDunderMainPy := false
  hasGoMod := false
  hasServerBinary := false
  hasCargoToml := false
  cargoLines := none
  releaseBinaries := []

/-- Witness for C3 (amended) at `treeNodeBinOne`. -/
theorem C3_resolution_deterministic_witness :
    ((binEntries treeNodeBinOne).filterMap strVal).length ≤ 1 ∧
    determineExecution "/d" treeNodeBinOne [("a", JVal.jstr "x.js")] =
      determineExecution "/d" treeNodeBinOne (binEntries treeNodeBinOne) :=
  ⟨by decide,
   C3_resolution_deterministic "/d" treeNodeBinOne _ _ (List.Perm.refl _)
     (List.Perm.refl _) (by decide)⟩

/-! ## C4: marker-file priority across the three consumers -/

/-- A tree holding `go.mod` (with no built `server` binary) together with a
`Cargo.toml` whose named release binary exists. -/
def treeGoRust : Tree where
  hasPackageJson := false
  pkgJson := none
  hasRequirements := false
  hasMainPy := false
  hasDunderMainPy := false
  hasGoMod := true
  hasServerBinary := false
  hasCargoToml := true
  cargoLines := some ["name = \"beta\""]
  releaseBinaries := ["beta"]

/-- C4 counterexample: `treeGoRust` contains `go.mod` before `Cargo.toml`
in the claimed priority order, so first-match classification makes it go
and (the built `server` binary being absent) execution resolution would
have to fail; the code's resolution instead falls through past the go
branch and succeeds with the rust release binary. -/
theorem C4_counterexample :
    detectEcosystem treeGoRust = Ecosystem.go ∧
    treeGoRust.hasServerBinary = false ∧
    determineExecution "/data/srv/1.0.0" treeGoRust [] =
      .ok ⟨"/data/srv/1.0.0/target/release/beta", [], []⟩ :=
  ⟨rfl, rfl, rfl⟩

/-- C4 (amended): the dependency step and the build step select their
commands exactly by the fixed-priority first-match classification
(package.json, requirements.txt, go.mod, Cargo.toml), and any tree
containing `package.json` — in particular one containing both
`package.json` and `go.mod` — is treated as node by execution resolution
as well (its result is the node interpreter command, or an error from the
node manifest alone). Execution resolution, however, only follows the
priority order up to the go branch: that branch claims the tree only when
the built `server` binary exists, falling through to the rust strategy
otherwise. -/
theorem C4_marker_priority (t : Tree) (serverDir : String)
    (binIter : List (String × JVal)) :
    installDependencies t = depCommandFor (detectEcosystem t) ∧
    buildServer t = buildCommandFor (detectEcosystem t) (hasNpmScript t "build") ∧
    (t.hasPackageJson = true →
      detectEcosystem t = Ecosystem.node ∧
      ((∃ r, determineExecution serverDir t binIter = .ok r ∧ r.command = "node") ∨
        determineExecution serverDir t binIter = .error .pkgError)) := by
  refine ⟨?_, ?_, ?_⟩
  · cases hp : t.hasPackageJson <;> cases hr : t.hasRequirements <;>
      cases hg : t.hasGoMod <;> cases hc : t.hasCargoToml <;>
      simp [installDependencies, detectEcosystem, depCommandFor, hp, hr, hg, hc]
  · cases hp : t.hasPackageJson <;> cases hr : t.hasRequirements <;>
      cases hg : t.hasGoMod <;> cases hc : t.hasCargoToml <;>
      simp [buildServer, detectEcosystem, buildCommandFor, hp, hr, hg, hc]
  · intro hp
    refine ⟨by simp [detectEcosystem, hp], ?_⟩
    cases hj : t.pkgJson with
    | none =>
      right
      simp [determineExecution, hp, hj]
    | some fs =>
      left
      cases hb : (match getField fs "bin" with
                  | some (.jobj _) => firstStrVal binIter
                  | _ => none) with
      | some rel =>
        refine ⟨⟨"node", [joinPath serverDir rel], []⟩, ?_, rfl⟩
        simp [determineExecution, hp, hj, hb]
      | none =>
        cases hm : getField fs "main" with
        | none =>
          refine ⟨⟨"node", [joinPath serverDir "index.js"], []⟩, ?_, rfl⟩
          simp [determineExecution, hp, hj, hb, hm]
        | some v =>
          cases v with
          | jstr mainRel =>
            refine ⟨⟨"node", [joinPath serverDir mainRel], []⟩, ?_, rfl⟩
            simp [determineExecution, hp, hj, hb, hm]
          | jnull =>
            refine ⟨⟨"node", [joinPath serverDir "index.js"], []⟩, ?_, rfl⟩
            simp [determineExecution, hp, hj, hb, hm]
          | jbool b =>
            refine ⟨⟨"node", [joinPath serverDir "index.js"], []⟩, ?_, rfl⟩
            simp [determineExecution, hp, hj, hb, hm]
          | jnum n =>
            refine ⟨⟨"node", [joinPath serverDir "index.js"], []⟩, ?_, rfl⟩
            simp [determineExecution, hp, hj, hb, hm]
          | jarr xs =>
            refine ⟨⟨"node", [joinPath serverDir "index.js"], []⟩, ?_, rfl⟩
            simp [determineExecution, hp, hj, hb, hm]
          | jobj gs =>
            refine ⟨⟨"node", [joinPath serverDir "index.js"], []⟩, ?_, rfl⟩
            simp [determineExecution, hp, hj, hb, hm]

/-- A tree containing both `package.json` (which parses to an empty object)
and `go.mod`. -/
def treeNodeGo : Tree where
  hasPackageJson := true
  pkgJson := some []
  hasRequirements := false
  hasMainPy := false
  hasDunderMainPy := false
  hasGoMod := true
  hasServerBinary := true
  hasCargoToml := false
  cargoLines := none
  releaseBinaries := []

/-- Witness for C4 (amended): a tree with both `package.json` and `go.mod`
is treated as node by all three steps. -/
theorem C4_marker_priority_witness :
    treeNodeGo.hasPackageJson = true ∧ treeNodeGo.hasGoMod = true ∧
    installDependencies treeNodeGo = some ("npm", ["install"]) ∧
    ((∃ r, determineExecution "/d" treeNodeGo [] = .ok r ∧ r.command = "node") ∨
      determineExecution "/d" treeNodeGo [] = .error .pkgError) :=
  ⟨rfl, rfl, rfl, ((C4_marker_priority treeNodeGo "/d" []).2.2 rfl).2⟩

/-! ## C1: `InstallServer` (manage.go) as a state machine

The install directory `<dataDir>/<name>/<version>` is abstracted to the
three observations the claim distinguishes: `absent`, `preExisting`
(whatever was there before the call, untouched), and `fetched` (created by
this call and holding the clone plus any later partial artifacts). The
outcomes of the external steps (`MkdirAll`, `git clone`+checkout, the
dependency command, the build command) are inputs, each an `Except`;
`determineExecution` runs on the tree as built. -/

/-- The `MCPServer` record assembled by a successful `InstallServer`. -/
structure MCPServer where
  Name : String
  Version : String
  Repository : String
  InstallPath : String
  Installed : Bool
  Command : String
  Args : List String
  Env : List (String × String)
deriving DecidableEq, Repr

/-- Observable states of the install directory. -/
inductive DirFs where
  | absent : DirFs
  | preExisting : DirFs
  | fetched : DirFs
deriving DecidableEq, Repr

/-- Errors of `InstallServer`, each wrapping its step's cause. -/
inductive InstallErr where
  | alreadyInstalled (name version : String) : InstallErr
  | mkdirFailed (e : String) : InstallErr
  | cloneFailed (e : String) : InstallErr
  | depsFailed (e : String) : InstallErr
  | buildFailed (e : String) : InstallErr
  | execFailed (e : ExecErr) : InstallErr
deriving DecidableEq, Repr

/-- Embedding of `InstallServer` (manage.go): guard on a pre-existing
directory, create it, clone (removing the directory on clone failure),
install dependencies, build, resolve execution, and assemble the record.
Returns the final directory state together with the result. -/
def InstallServer (name version repository dataDir : String)
    (initial : DirFs)
    (mkdir fetch deps build : Except String Unit)
    (t : Tree) (binIter : List (String × JVal)) :
    DirFs × Except InstallErr MCPServer :=
  let serverDir := joinPath (joinPath dataDir name) version
  if initial ≠ DirFs.absent then
    (initial, .error (.alreadyInstalled name version))
  else
    match mkdir with
    | .error e => (DirFs.absent, .error (.mkdirFailed e))
    | .ok _ =>
      match fetch with
      | .error e => (DirFs.absent, .error (.cloneFailed e))
      | .ok _ =>
        match deps with
        | .error e => (DirFs.fetched, .error (.depsFailed e))
        | .ok _ =>
          match build with
          | .error e => (DirFs.fetched, .error (.buildFailed e))
          | .ok _ =>
            match determineExecution serverDir t binIter with
            | .error e => (DirFs.fetched, .error (.execFailed e))
            | .ok r =>
              (DirFs.fetched,
               .ok { Name := name, Version := version, Repository := repository,
                     InstallPath := serverDir, Installed := true,
                     Command := r.command, Args := r.args, Env := r.env })

/-- C1: if the target install directory already exists, `InstallServer`
fails immediately with the already-installed error and changes nothing; if
the clone/checkout step fails, the freshly created directory is removed
before the error is returned; if the dependency-install or build step
fails after a successful clone, the directory and its partial contents are
left in place and the error is returned. -/
theorem C1_installServer_rollback (name version repository dataDir : String)
    (initial : DirFs) (mkdir fetch deps build : Except String Unit)
    (t : Tree) (binIter : List (String × JVal)) :
    (initial ≠ DirFs.absent →
      InstallServer name version repository dataDir initial mkdir fetch deps
          build t binIter =
        (initial, .error (.alreadyInstalled name version))) ∧
    (∀ e, initial = DirFs.absent → mkdir = .ok () → fetch = .error e →
      InstallServer name version repository dataDir initial mkdir fetch deps
          build t binIter =
        (DirFs.absent, .error (.cloneFailed e))) ∧
    (∀ e, initial = DirFs.absent → mkdir = .ok () → fetch = .ok () →
        deps = .error e →
      InstallServer name version repository dataDir initial mkdir fetch deps
          build t binIter =
        (DirFs.fetched, .error (.depsFailed e))) ∧
    (∀ e, initial = DirFs.absent → mkdir = .ok () → fetch = .ok () →
        deps = .ok () → build = .error e →
      InstallServer name version repository dataDir initial mkdir fetch deps
          build t binIter =
        (DirFs.fetched, .error (.buildFailed e))) := by
  refine ⟨?_, ?_, ?_, ?_⟩
  · intro hex
    simp [InstallServer, hex]
  · intro e h0 h1 h2
    simp [InstallServer, h0, h1, h2]
  · intro e h0 h1 h2 h3
    simp [InstallServer, h0, h1, h2, h3]
  · intro e h0 h1 h2 h3 h4
    simp [InstallServer, h0, h1, h2, h3, h4]

/-- Witness for C1: the already-installed guard, the clone rollback, and
the no-rollback dependency failure at concrete inputs. -/
theorem C1_installServer_rollback_witness :
    InstallServer "srv" "1.0.0" "https://example/repo" "/data"
        DirFs.preExisting (.ok ()) (.ok ()) (.ok ()) (.ok ()) treeNodeGo [] =
      (DirFs.preExisting, .error (.alreadyInstalled "srv" "1.0.0")) ∧
    InstallServer "srv" "1.0.0" "https://example/repo" "/data"
        DirFs.absent (.ok ()) (.error "network unreachable") (.ok ()) (.ok ())
        treeNodeGo [] =
      (DirFs.absent, .error (.cloneFailed "network unreachable")) ∧
    InstallServer "srv" "1.0.0" "https://example/repo" "/data"
        DirFs.absent (.ok ()) (.ok ()) (.error "npm exit 1") (.ok ())
        treeNodeGo [] =
      (DirFs.fetched, .error (.depsFailed "npm exit 1")) :=
  ⟨(C1_installServer_rollback "srv" "1.0.0" "https://example/repo" "/data"
      DirFs.preExisting (.ok ()) (.ok ()) (.ok ()) (.ok ()) treeNodeGo []).1
      (by decide),
   (C1_installServer_rollback "srv" "1.0.0" "https://example/repo" "/data"
      DirFs.absent (.ok ()) (.error "network unreachable") (.ok ()) (.ok ())
      treeNodeGo []).2.1 "network unreachable" rfl rfl rfl,
   (C1_installServer_rollback "srv" "1.0.0" "https://example/repo" "/data"
      DirFs.absent (.ok ()) (.ok ()) (.error "npm exit 1") (.ok ())
      treeNodeGo []).2.2.1 "npm exit 1" rfl rfl rfl rfl⟩

/-! ## C6: persisting the agent registry (agent_registry.go)

The persisted `agents.json` is abstracted to what `shouldUpdateConfig`
observes: missing, unreadable/unparseable (with its raw bytes), or a
loadable registry with a stored version string and raw bytes.
`InstallToConfigDir` returns the resulting file together with whether it
wrote. A write stores the `MarshalIndent` serialization of the in-memory
registry, whose stored version is the registry's version. -/

/-- The persisted registry file as observed by `shouldUpdateConfig`. -/
inductive RegistryFile where
  | missing : RegistryFile
  | unreadable (raw : String) : RegistryFile
  | valid (storedVersion : String) (raw : String) : RegistryFile
deriving DecidableEq, Repr

/-- Embedding of `shouldUpdateConfig` (agent_registry.go): update when the
file is missing, when loading it fails, or when the ordinal comparison of
version strings differs. -/
def shouldUpdateConfig (arVersion : String) : RegistryFile → Bool
  | .missing => true
  | .unreadable _ => true
  | .valid v _ => arVersion != v

/-- Embedding of `InstallToConfigDir` (agent_registry.go): rewrite the file
with the serialized registry exactly when `shouldUpdateConfig` says so,
otherwise leave the stored bytes untouched. -/
def InstallToConfigDir (arVersion serialized : String) (f : RegistryFile) :
    RegistryFile × Bool :=
  if shouldUpdateConfig arVersion f then
    (.valid arVersion serialized, true)
  else (f, false)

/-- C6: the registry installation step rewrites the persisted file iff the
file is missing, unreadable, or stores a version string ordinally different
from the loaded registry's; with equal version strings the stored bytes are
left unchanged. -/
theorem C6_registry_rewrite (v s : String) (f : RegistryFile) :
    ((InstallToConfigDir v s f).2 = true ↔
      f = .missing ∨ (∃ raw, f = .unreadable raw) ∨
        ∃ v0 raw, f = .valid v0 raw ∧ v ≠ v0) ∧
    ((InstallToConfigDir v s f).2 = false → (InstallToConfigDir v s f).1 = f) ∧
    (∀ raw, InstallToConfigDir v s (.valid v raw) = (.valid v raw, false)) := by
  refine ⟨?_, ?_, ?_⟩
  · cases f with
    | missing => simp [InstallToConfigDir, shouldUpdateConfig]
    | unreadable raw => simp [InstallToConfigDir, shouldUpdateConfig]
    | valid v0 raw =>
      by_cases hv : v = v0
      · subst hv
        simp [InstallToConfigDir, shouldUpdateConfig]
      · simp [InstallToConfigDir, shouldUpdateConfig, hv]
  · intro hw
    cases f with
    | missing => simp [InstallToConfigDir, shouldUpdateConfig] at hw
    | unreadable raw => simp [InstallToConfigDir, shouldUpdateConfig] at hw
    | valid v0 raw =>
      by_cases hv : v = v0
      · subst hv
        simp [InstallToConfigDir, shouldUpdateConfig]
      · simp [InstallToConfigDir, shouldUpdateConfig, hv] at hw
  · intro raw
    simp [InstallToConfigDir, shouldUpdateConfig]

/-- Witness for C6: version bump `"1.0" → "1.1"` rewrites; identical
versions leave the file untouched. -/
theorem C6_registry_rewrite_witness :
    (InstallToConfigDir "1.1" "serialized" (.valid "1.0" "oldraw")).2 = true ∧
    InstallToConfigDir "1.1" "serialized" (.valid "1.1" "oldraw") =
      (.valid "1.1" "oldraw", false) :=
  ⟨(C6_registry_rewrite "1.1" "serialized" (.valid "1.0" "oldraw")).1.mpr
      (Or.inr (Or.inr ⟨"1.0", "oldraw", rfl, by decide⟩)),
   (C6_registry_rewrite "1.1" "serialized" (.valid "1.1" "oldraw")).2.2 "oldraw"⟩

/-! ## Agent specifications and the dynamic agent config adapter
(agent_registry.go / dynamic_agent_config.go)

`AgentSpec` keeps the fields the verified code reads: the `global` flag,
the config rule (single `path` or candidate `paths`, plus the declared
default `structure`), and the detection lists. The adapter operates on the
one config file its resolved path denotes, modelled as an `AgentFile`:
missing, unparseable, or a stored top-level JSON object. -/

/-- Config rule of an agent (`ConfigSpec` in agent_registry.go). The Go
field `Structure` (a possibly-nil map) is an `Option`. -/
structure ConfigSpec where
  Path : String := ""
  Paths : List String := []
  Format : String := ""
  Structure : Option (List (String × JVal)) := none
deriving Repr

/-- Agent specification (`AgentSpec` in agent_registry.go, the variant with
the `global` flag and a single `config` rule). The Go field `Type` is
`AgentType` here (`Type` is reserved in Lean); the `Detection` pointer is
flattened into its two lists. -/
structure AgentSpec where
  Name : String := ""
  AgentType : String := ""
  Description : String := ""
  Global : Bool := false
  Config : Option ConfigSpec := none
  ServerConfigFormat : List (String × String) := []
  DetectionPaths : List String := []
  DetectionCommands : List String := []
deriving Repr

/-- The agent's config file as the adapter observes it. -/
inductive AgentFile where
  | missing : AgentFile
  | invalid (raw : String) : AgentFile
  | stored (doc : List (String × JVal)) : AgentFile
deriving Repr

/-- Whether `GetConfigPath` succeeds for a registered agent: a config rule
exists and carries either a single path or a non-empty candidate list
(the candidate-list fallback always returns the first candidate). -/
def hasResolvableConfigPath (spec : AgentSpec) : Bool :=
  match spec.Config with
  | some cfg => (cfg.Path != "") || !cfg.Paths.isEmpty
  | none => false

/-- Embedding of `LoadConfig` (dynamic_agent_config.go): resolve the config
path (an error when no rule yields one); on a missing file synthesize the
spec's declared default structure, or a bare `mcpServers` object; on an
unparseable file fail; on a stored document ensure the `mcpServers` key
exists without touching anything else. -/
def LoadConfig (spec : AgentSpec) (file : AgentFile) :
    Except String (List (String × JVal)) :=
  if hasResolvableConfigPath spec then
    match file with
    | .missing =>
      match spec.Config with
      | some cfg =>
        match cfg.Structure with
        | some st => .ok st
        | none => .ok [("mcpServers", .jobj [])]
      | none => .ok [("mcpServers", .jobj [])]
    | .invalid _ => .error "failed to parse config file"
    | .stored doc =>
      if (getField doc "mcpServers").isSome then .ok doc
      else .ok (setField doc "mcpServers" (.jobj []))
  else .error "no config path available"

/-- Embedding of `createServerConfig` (dynamic_agent_config.go): `command`
if non-empty, `args` if non-empty, `env` if non-empty. The `spec` argument
of the Go method is unused there and omitted here. -/
def createServerConfig (server : MCPServer) : List (String × JVal) :=
  (if server.Command ≠ "" then [("command", JVal.jstr server.Command)] else []) ++
  (if server.Args ≠ [] then
    [("args", JVal.jarr (server.Args.map JVal.jstr))] else []) ++
  (if server.Env ≠ [] then
    [("env", JVal.jobj (server.Env.map (fun p => (p.1, JVal.jstr p.2))))] else [])

/-- Embedding of `AddMCPServer` (dynamic_agent_config.go): load, replace
the `mcpServers` mapping with a fresh object when it is not object-valued,
set the entry under the server's name, save. Returns the resulting file
state and the result. -/
def AddMCPServer (spec : AgentSpec) (server : MCPServer) (file : AgentFile) :
    AgentFile × Except String Unit :=
  match LoadConfig spec file with
  | .error e => (file, .error e)
  | .ok config =>
    (.stored (setField config "mcpServers" (.jobj
      (setField (match getField config "mcpServers" with
                 | some (.jobj ms) => ms
                 | _ => []) server.Name (.jobj (createServerConfig server))))),
     .ok ())

/-- Embedding of `RemoveMCPServer` (dynamic_agent_config.go): load; when
the `mcpServers` value is not an object return without error and without
saving; otherwise delete the key and save. -/
def RemoveMCPServer (spec : AgentSpec) (serverName : String) (file : AgentFile) :
    AgentFile × Except String Unit :=
  match LoadConfig spec file with
  | .error e => (file, .error e)
  | .ok config =>
    match getField config "mcpServers" with
    | some (.jobj ms) =>
      (.stored (setField config "mcpServers" (.jobj (delField ms serverName))),
       .ok ())
    | _ => (file, .ok ())

theorem LoadConfig_ok_of_not_invalid (spec : AgentSpec) (file : AgentFile)
    (hres : hasResolvableConfigPath spec = true)
    (hfile : ∀ raw, file ≠ .invalid raw) :
    ∃ base, LoadConfig spec file = .ok base := by
  cases file with
  | invalid raw => exact absurd rfl (hfile raw)
  | missing =>
    rcases hc : spec.Config with _ | cfg
    · exact ⟨[("mcpServers", .jobj [])], by simp [LoadConfig, hres, hc]⟩
    · rcases hst : cfg.Structure with _ | st
      · exact ⟨[("mcpServers", .jobj [])], by simp [LoadConfig, hres, hc, hst]⟩
      · exact ⟨st, by simp [LoadConfig, hres, hc, hst]⟩
  | stored doc =>
    by_cases hms : (getField doc "mcpServers").isSome
    · exact ⟨doc, by simp [LoadConfig, hres, hms]⟩
    · exact ⟨setField doc "mcpServers" (.jobj []),
        by simp [LoadConfig, hres, hms]⟩

/-- C5: after `addEntry` of an installation, an immediate `load` returns a
document whose `mcpServers` mapping binds the installation's name to
exactly `{command?, args?, env?}` with empty fields omitted, any prior
entry under that name wholly replaced. -/
theorem C5_addEntry_load (spec : AgentSpec) (server : MCPServer)
    (file : AgentFile)
    (hres : hasResolvableConfigPath spec = true)
    (hfile : ∀ raw, file ≠ .invalid raw) :
    ∃ doc ms,
      (AddMCPServer spec server file).2 = .ok () ∧
      LoadConfig spec (AddMCPServer spec server file).1 = .ok doc ∧
      getField doc "mcpServers" = some (.jobj ms) ∧
      getField ms server.Name = some (.jobj (
        (if server.Command ≠ "" then [("command", JVal.jstr server.Command)]
         else []) ++
        (if server.Args ≠ [] then
          [("args", JVal.jarr (server.Args.map JVal.jstr))] else []) ++
        (if server.Env ≠ [] then
          [("env", JVal.jobj (server.Env.map (fun p => (p.1, JVal.jstr p.2))))]
         else []))) := by
  obtain ⟨base, hbase⟩ := LoadConfig_ok_of_not_invalid spec file hres hfile
  have hadd : AddMCPServer spec server file =
      (.stored (setField base "mcpServers" (.jobj
        (setField (match getField base "mcpServers" with
                   | some (.jobj ms) => ms
                   | _ => []) server.Name (.jobj (createServerConfig server))))),
       .ok ()) := by
    simp [AddMCPServer, hbase]
  refine ⟨setField base "mcpServers" (.jobj
      (setField (match getField base "mcpServers" with
                 | some (.jobj ms) => ms
                 | _ => []) server.Name (.jobj (createServerConfig server)))),
    setField (match getField base "mcpServers" with
              | some (.jobj ms) => ms
              | _ => []) server.Name (.jobj (createServerConfig server)),
    ?_, ?_, ?_, ?_⟩
  · rw [hadd]
  · rw [hadd]
    have hsome : (getField (setField base "mcpServers" (.jobj
        (setField (match getField base "mcpServers" with
                   | some (.jobj ms) => ms
                   | _ => []) server.Name
          (.jobj (createServerConfig server))))) "mcpServers").isSome := by
      rw [getField_setField]
      simp
    simp [LoadConfig, hres, hsome]
  · rw [getField_setField]
    simp
  · rw [getField_setField]
    simp [createServerConfig]

/-- An agent spec with a resolvable single config path. -/
def specWithPath : AgentSpec where
  Name := "Agent"
  AgentType := "agent"
  Global := false
  Config := some { Path := "/home/u/.agent/config.json" }

/-- A prior config document carrying an unrelated key and a prior entry
under the server's name with a stale field. -/
def priorDoc : List (String × JVal) :=
  [("other", .jstr "keep"),
   ("mcpServers", .jobj [("srv", .jobj [("command", .jstr "stale")])])]

/-- Witness for C5 at a concrete spec, installation, and prior document. -/
theorem C5_addEntry_load_witness :
    hasResolvableConfigPath specWithPath = true ∧
    ∃ doc ms,
      (AddMCPServer specWithPath
        { Name := "srv", Version := "1.0.0", Repository := "r",
          InstallPath := "/data/srv/1.0.0", Installed := true,
          Command := "node", Args := ["/data/srv/1.0.0/x.js"], Env := [] }
        (.stored priorDoc)).2 = .ok () ∧
      LoadConfig specWithPath (AddMCPServer specWithPath
        { Name := "srv", Version := "1.0.0", Repository := "r",
          InstallPath := "/data/srv/1.0.0", Installed := true,
          Command := "node", Args := ["/data/srv/1.0.0/x.js"], Env := [] }
        (.stored priorDoc)).1 = .ok doc ∧
      getField doc "mcpServers" = some (.jobj ms) ∧
      getField ms "srv" = some (.jobj (
        (if ("node" : String) ≠ "" then [("command", JVal.jstr "node")]
         else []) ++
        (if (["/data/srv/1.0.0/x.js"] : List String) ≠ [] then
          [("args", JVal.jarr (["/data/srv/1.0.0/x.js"].map JVal.jstr))]
         else []) ++
        (if ([] : List (String × String)) ≠ [] then
          [("env", JVal.jobj (([] : List (String × String)).map
            (fun p => (p.1, JVal.jstr p.2))))]
         else []))) :=
  ⟨rfl, C5_addEntry_load specWithPath
    { Name := "srv", Version := "1.0.0", Repository := "r",
      InstallPath := "/data/srv/1.0.0", Installed := true,
      Command := "node", Args := ["/data/srv/1.0.0/x.js"], Env := [] }
    (.stored priorDoc) rfl (fun raw h => by cases h)⟩

/-- C8: `removeEntry` on a stored document always succeeds; every key other
than `mcpServers` keeps its value; when the `mcpServers` object is present
exactly the given key is deleted from it; when the `mcpServers` key is
absent the document is saved with an empty `mcpServers` object and nothing
else changes; when `mcpServers` holds a non-object value the document is
left entirely unchanged. -/
theorem C8_removeEntry (spec : AgentSpec) (serverName : String)
    (doc : List (String × JVal))
    (hres : hasResolvableConfigPath spec = true) :
    ∃ doc',
      (RemoveMCPServer spec serverName (.stored doc)).2 = .ok () ∧
      (RemoveMCPServer spec serverName (.stored doc)).1 = .stored doc' ∧
      (∀ k, k ≠ "mcpServers" → getField doc' k = getField doc k) ∧
      (∀ ms, getField doc "mcpServers" = some (.jobj ms) →
        getField doc' "mcpServers" = some (.jobj (delField ms serverName)) ∧
        ∀ k, getField (delField ms serverName) k =
          if k = serverName then none else getField ms k) ∧
      (getField doc "mcpServers" = none →
        getField doc' "mcpServers" = some (.jobj [])) ∧
      (∀ v, getField doc "mcpServers" = some v → (∀ ms, v ≠ .jobj ms) →
        doc' = doc) := by
  have hobj : ∀ v : JVal, getField doc "mcpServers" = some v →
      (∀ ms, v ≠ .jobj ms) →
      ∃ doc',
        (RemoveMCPServer spec serverName (.stored doc)).2 = .ok () ∧
        (RemoveMCPServer spec serverName (.stored doc)).1 = .stored doc' ∧
        (∀ k, k ≠ "mcpServers" → getField doc' k = getField doc k) ∧
        (∀ ms, getField doc "mcpServers" = some (.jobj ms) →
          getField doc' "mcpServers" = some (.jobj (delField ms serverName)) ∧
          ∀ k, getField (delField ms serverName) k =
            if k = serverName then none else getField ms k) ∧
        (getField doc "mcpServers" = none →
          getField doc' "mcpServers" = some (.jobj [])) ∧
        (∀ v, getField doc "mcpServers" = some v → (∀ ms, v ≠ .jobj ms) →
          doc' = doc) := by
    intro v hms hne
    have hload : LoadConfig spec (.stored doc) = .ok doc := by
      simp [LoadConfig, hres, hms]
    have hrem : RemoveMCPServer spec serverName (.stored doc) =
        (.stored doc, .ok ()) := by
      cases v with
      | jobj ms => exact absurd rfl (hne ms)
      | jnull => simp [RemoveMCPServer, hload, hms]
      | jbool b => simp [RemoveMCPServer, hload, hms]
      | jnum n => simp [RemoveMCPServer, hload, hms]
      | jstr sv => simp [RemoveMCPServer, hload, hms]
      | jarr xs => simp [RemoveMCPServer, hload, hms]
    refine ⟨doc, by rw [hrem], by rw [hrem], fun k hk => rfl, ?_, ?_,
      fun _ _ _ => rfl⟩
    · intro ms2 hms2
      rw [hms] at hms2
      injection hms2 with h
      exact absurd h (hne ms2)
    · intro hnone
      rw [hms] at hnone
      simp at hnone
  cases hms : getField doc "mcpServers" with
  | none =>
    -- `mcpServers` absent: LoadConfig materializes an empty object.
    have hload : LoadConfig spec (.stored doc) =
        .ok (setField doc "mcpServers" (.jobj [])) := by
      simp [LoadConfig, hres, hms]
    have hget : getField (setField doc "mcpServers" (.jobj [])) "mcpServers" =
        some (.jobj []) := by
      rw [getField_setField]
      simp
    refine ⟨setField (setField doc "mcpServers" (.jobj [])) "mcpServers"
      (.jobj (delField [] serverName)), ?_, ?_, ?_, ?_, ?_, ?_⟩
    · simp [RemoveMCPServer, hload, hget, delField]
    · simp [RemoveMCPServer, hload, hget, delField]
    · intro k hk
      rw [getField_setField, if_neg hk, getField_setField, if_neg hk]
    · intro ms hms2
      simp at hms2
    · intro _
      rw [getField_setField]
      simp [delField]
    · intro v hv
      simp at hv
  | some v =>
    cases v with
    | jobj ms =>
      have hload : LoadConfig spec (.stored doc) = .ok doc := by
        simp [LoadConfig, hres, hms]
      refine ⟨setField doc "mcpServers" (.jobj (delField ms serverName)),
        ?_, ?_, ?_, ?_, ?_, ?_⟩
      · simp [RemoveMCPServer, hload, hms]
      · simp [RemoveMCPServer, hload, hms]
      · intro k hk
        rw [getField_setField, if_neg hk]
      · intro ms2 hms2
        injection hms2 with h
        injection h with h2
        subst h2
        constructor
        · rw [getField_setField]
          simp
        · intro k
          exact getField_delField ms serverName k
      · intro hnone
        simp at hnone
      · intro v hv hne
        injection hv with h
        exact absurd h.symm (hne ms)
    | jnull =>
      simp only [← hms]
      exact hobj _ hms (fun ms h => by cases h)
    | jbool b =>
      simp only [← hms]
      exact hobj _ hms (fun ms h => by cases h)
    | jnum n =>
      simp only [← hms]
      exact hobj _ hms (fun ms h => by cases h)
    | jstr sv =>
      simp only [← hms]
      exact hobj _ hms (fun ms h => by cases h)
    | jarr xs =>
      simp only [← hms]
      exact hobj _ hms (fun ms h => by cases h)

/-- Witness for C8 at a concrete document lacking the `mcpServers` key. -/
theorem C8_removeEntry_witness :
    hasResolvableConfigPath specWithPath = true ∧
    ∃ doc',
      (RemoveMCPServer specWithPath "gone"
        (.stored [("other", .jstr "keep")])).2 = .ok () ∧
      (RemoveMCPServer specWithPath "gone"
        (.stored [("other", .jstr "keep")])).1 = .stored doc' ∧
      (∀ k, k ≠ "mcpServers" →
        getField doc' k = getField [("other", JVal.jstr "keep")] k) ∧
      (∀ ms, getField [("other", JVal.jstr "keep")] "mcpServers" =
          some (.jobj ms) →
        getField doc' "mcpServers" = some (.jobj (delField ms "gone")) ∧
        ∀ k, getField (delField ms "gone") k =
          if k = "gone" then none else getField ms k) ∧
      (getField [("other", JVal.jstr "keep")] "mcpServers" = none →
        getField doc' "mcpServers" = some (.jobj [])) ∧
      (∀ v, getField [("other", JVal.jstr "keep")] "mcpServers" = some v →
        (∀ ms, v ≠ .jobj ms) → doc' = [("other", JVal.jstr "keep")]) :=
  ⟨rfl, C8_removeEntry specWithPath "gone" [("other", .jstr "keep")] rfl⟩

/-! ## C7: `GetConfigPath` (agent_registry.go, global-flag variant)

Filesystem facts entering path resolution are bundled in an `FsEnv`: the
home directory (for `~/` expansion), whether the platform is windows
together with the process-environment expansion function (for the `%VAR%`
branch of `expandPath`), and the set of directories `os.Stat` finds. -/

/-- Filesystem and platform environment of path resolution. -/
structure FsEnv where
  home : String
  isWindows : Bool
  envExpand : String → String
  existingDirs : List String

/-- Embedding of `expandPath` (agent_registry.go): expand a leading `~/`
against the home directory; expand `%`-variables only on windows;
otherwise return the path unchanged. The prefix and containment tests of
the `strings` package are taken at the character level. -/
def expandPath (env : FsEnv) (path : String) : String :=
  if ("~/".toList).isPrefixOf path.toList then joinPath env.home (path.drop 2)
  else if path.toList.contains '%' && env.isWindows then env.envExpand path
  else path

/-- Model of `filepath.Dir` on clean paths: drop the last `/`-separated
component; a separator-free path has parent `.`. -/
def parentDir (p : String) : String :=
  let parts := splitChar '/' p.toList
  if parts.length ≤ 1 then "."
  else String.mk (List.intercalate ['/'] parts.dropLast)

/-- Lookup in the registry's `Agents` map (`GetAgent`). -/
def getAgent : List (String × AgentSpec) → String → Option AgentSpec
  | [], _ => none
  | (k, v) :: rest, key => if k = key then some v else getAgent rest key

/-- The candidate-paths part of `GetConfigPath` (agent_registry.go): the
loop returning the first expanded candidate whose parent directory exists,
then the first-candidate fallback, then the no-path error. -/
def resolveFromPaths (env : FsEnv) (agentType : String) (paths : List String) :
    Except String String :=
  match paths.find?
      (fun p => env.existingDirs.contains (parentDir (expandPath env p))) with
  | some p => .ok (expandPath env p)
  | none =>
    match paths with
    | p :: _ => .ok (expandPath env p)
    | [] => .error ("no config path available for agent " ++ agentType)

/-- Embedding of `GetConfigPath` (agent_registry.go): unknown types fail;
a spec flagged global forces `useLocal` off; a single configured path is
returned (expanded unless a local relative path is wanted); candidate
paths are resolved by `resolveFromPaths`. -/
def GetConfigPath (env : FsEnv) (agents : List (String × AgentSpec))
    (agentType : String) (useLocal : Bool) : Except String String :=
  match getAgent agents agentType with
  | none => .error ("unknown agent type: " ++ agentType)
  | some spec =>
    let useLocal := if spec.Global then false else useLocal
    match spec.Config with
    | none => .error ("no config specification for agent " ++ agentType)
    | some cfg =>
      if cfg.Path ≠ "" then
        if !useLocal && !((".".toList).isPrefixOf cfg.Path.toList) then
          .ok (expandPath env cfg.Path)
        else .ok cfg.Path
      else resolveFromPaths env agentType cfg.Paths

/-- C7: for a registered agent, a spec flagged global resolves independently
of the requested local preference, to the same path the global request
resolves to; for a spec exposing candidate paths, the first candidate whose
parent directory exists wins, and when no candidate's parent exists the
first candidate is returned unconditionally. -/
theorem C7_resolvePath (env : FsEnv) (agents : List (String × AgentSpec))
    (agentType : String) (spec : AgentSpec)
    (hga : getAgent agents agentType = some spec) :
    (spec.Global = true → ∀ l1 l2 : Bool,
      GetConfigPath env agents agentType l1 =
        GetConfigPath env agents agentType l2 ∧
      GetConfigPath env agents agentType l1 =
        GetConfigPath env agents agentType false) ∧
    (∀ cfg, spec.Config = some cfg → cfg.Path = "" →
      (∀ ps1 p ps2, cfg.Paths = ps1 ++ p :: ps2 →
        (∀ q ∈ ps1,
          ¬ env.existingDirs.contains (parentDir (expandPath env q)) = true) →
        env.existingDirs.contains (parentDir (expandPath env p)) = true →
        ∀ l, GetConfigPath env agents agentType l = .ok (expandPath env p)) ∧
      (∀ p rest, cfg.Paths = p :: rest →
        (∀ q ∈ cfg.Paths,
          ¬ env.existingDirs.contains (parentDir (expandPath env q)) = true) →
        ∀ l, GetConfigPath env agents agentType l = .ok (expandPath env p))) := by
  have hred : ∀ cfg, spec.Config = some cfg → cfg.Path = "" → ∀ l : Bool,
      GetConfigPath env agents agentType l =
        resolveFromPaths env agentType cfg.Paths := by
    intro cfg hcfg hpath l
    simp [GetConfigPath, hga, hcfg, hpath]
  constructor
  · intro hG l1 l2
    constructor <;> simp [GetConfigPath, hga, hG]
  · intro cfg hcfg hpath
    constructor
    · intro ps1 p ps2 hps hnone hp l
      have h1 : ps1.find?
          (fun q => env.existingDirs.contains (parentDir (expandPath env q))) =
          none := List.find?_eq_none.mpr hnone
      have h2 : List.find?
          (fun q => env.existingDirs.contains (parentDir (expandPath env q)))
          (p :: ps2) = some p := List.find?_cons_of_pos _ hp
      have hfind : cfg.Paths.find?
          (fun q => env.existingDirs.contains (parentDir (expandPath env q))) =
          some p := by
        rw [hps, List.find?_append, h1, h2]
        rfl
      rw [hred cfg hcfg hpath l]
      simp only [resolveFromPaths, hfind]
    · intro p rest hps hnone l
      have hfind : cfg.Paths.find?
          (fun q => env.existingDirs.contains (parentDir (expandPath env q))) =
          none := List.find?_eq_none.mpr hnone
      rw [hps] at hfind
      rw [hred cfg hcfg hpath l]
      rw [hps]
      simp only [resolveFromPaths, hfind]

/-- An agent spec flagged global with a tilde-expanded single path. -/
def specGlobalW : AgentSpec where
  Name := "GlobalAgent"
  AgentType := "glob"
  Global := true
  Config := some { Path := "~/global.json" }

/-- An agent spec exposing two candidate paths. -/
def specPathsW : AgentSpec :=
  { Name := "MultiAgent", AgentType := "multi", Global := false,
    Config := some { Path := "",
                     Paths := ["/etc/app/cfg.json", "/home/u/.config/cfg.json"] } }

/-- A concrete environment where only `/home/u/.config` exists. -/
def envW : FsEnv where
  home := "/home/u"
  isWindows := false
  envExpand := fun s => s
  existingDirs := ["/home/u/.config"]

/-- The concrete registry for the C7 witness. -/
def agentsW : List (String × AgentSpec) :=
  [("glob", specGlobalW), ("multi", specPathsW)]

/-- Witness for C7: the global spec resolves identically under both
preferences, and the multi-path spec resolves to the first candidate whose
parent directory exists. -/
theorem C7_resolvePath_witness :
    (GetConfigPath envW agentsW "glob" true =
      GetConfigPath envW agentsW "glob" false) ∧
    GetConfigPath envW agentsW "multi" true =
      .ok (expandPath envW "/home/u/.config/cfg.json") :=
  ⟨((C7_resolvePath envW agentsW "glob" specGlobalW rfl).1 rfl true false).2,
   ((C7_resolvePath envW agentsW "multi" specPathsW rfl).2
     { Path := "", Paths := ["/etc/app/cfg.json", "/home/u/.config/cfg.json"] }
     rfl rfl).1 ["/etc/app/cfg.json"] "/home/u/.config/cfg.json" [] rfl
     (by decide) (by decide) true⟩

/-! ## C9: the fan-out patcher (manage.go `PatchAgentConfigs` and
`RemoveServerFromAgentConfigs`, dynamic_agent_config.go
`AddServerToAgent` and `RemoveServerFromAgent`)

The per-agent config files are a mapping from agent type to `AgentFile`;
`detected` is the list `DetectAvailableAgents` returned (distinct keys of
the registry map). Both fan-out loops attempt every agent, collecting
`(type, cause)` failures in order, and report one aggregated error when
any failed. -/

/-- The file an agent's resolved config path currently holds (`missing`
when the agent was never configured). -/
def getFileD : List (String × AgentFile) → String → AgentFile
  | [], _ => .missing
  | (k, f) :: rest, key => if k = key then f else getFileD rest key

/-- Replace (or create) an agent's config file. -/
def setFile : List (String × AgentFile) → String → AgentFile →
    List (String × AgentFile)
  | [], key, f => [(key, f)]
  | (k, g) :: rest, key, f =>
    if k = key then (k, f) :: rest else (k, g) :: setFile rest key f

theorem getFileD_setFile (files : List (String × AgentFile)) (key k : String)
    (f : AgentFile) :
    getFileD (setFile files key f) k =
      if k = key then f else getFileD files k := by
  induction files with
  | nil =>
    by_cases h : k = key
    · simp [setFile, getFileD, h]
    · have h' : ¬ key = k := fun hh => h hh.symm
      simp [setFile, getFileD, h, h']
  | cons p files ih =>
    obtain ⟨k', g⟩ := p
    by_cases h1 : k' = key
    · subst h1
      by_cases h2 : k' = k
      · subst h2
        simp [setFile, getFileD]
      · have h2' : ¬ k = k' := fun hh => h2 hh.symm
        simp [setFile, getFileD, h2, h2']
    · by_cases h2 : k' = k
      · subst h2
        simp [setFile, getFileD, h1, fun hh => h1 hh]
      · simp [setFile, getFileD, h1, h2, ih]

/-- Embedding of `AddServerToAgent` (dynamic_agent_config.go): look the
agent up in the manager's configs map (an error for unknown types) and run
the adapter's `AddMCPServer` on that agent's file. -/
def AddServerToAgent (agents : List (String × AgentSpec)) (agentType : String)
    (server : MCPServer) (file : AgentFile) : AgentFile × Except String Unit :=
  match getAgent agents agentType with
  | none => (file, .error ("unsupported agent type: " ++ agentType))
  | some spec => AddMCPServer spec server file

/-- The `for _, agentType := range availableAgents` loop of
`PatchAgentConfigs` (manage.go): attempt every agent, keeping each
success's written file and collecting `(type, cause)` for failures in loop
order. -/
def addServerLoop (agents : List (String × AgentSpec)) (detected : List String)
    (server : MCPServer) (files : List (String × AgentFile)) :
    List (String × AgentFile) × List (String × String) :=
  match detected with
  | [] => (files, [])
  | a :: rest =>
    match AddServerToAgent agents a server (getFileD files a) with
    | (f', .ok _) => addServerLoop agents rest server (setFile files a f')
    | (_, .error e) =>
      match addServerLoop agents rest server files with
      | (fs', errs) => (fs', (a, e) :: errs)

/-- Embedding of `RemoveServerFromAgent` (dynamic_agent_config.go): look
the agent up in the manager's configs map (an error for unknown types) and
run the adapter's `RemoveMCPServer` on that agent's file. -/
def RemoveServerFromAgent (agents : List (String × AgentSpec))
    (agentType serverName : String) (file : AgentFile) :
    AgentFile × Except String Unit :=
  match getAgent agents agentType with
  | none => (file, .error ("unsupported agent type: " ++ agentType))
  | some spec => RemoveMCPServer spec serverName file

/-- The `for _, agentType := range availableAgents` loop of
`RemoveServerFromAgentConfigs` (manage.go): attempt every agent, keeping
each success's written file and collecting `(type, cause)` for failures in
loop order. -/
def removeServerLoop (agents : List (String × AgentSpec))
    (detected : List String) (serverName : String)
    (files : List (String × AgentFile)) :
    List (String × AgentFile) × List (String × String) :=
  match detected with
  | [] => (files, [])
  | a :: rest =>
    match RemoveServerFromAgent agents a serverName (getFileD files a) with
    | (f', .ok _) => removeServerLoop agents rest serverName (setFile files a f')
    | (_, .error e) =>
      match removeServerLoop agents rest serverName files with
      | (fs', errs) => (fs', (a, e) :: errs)

/-- The aggregated multi-agent failure of the fan-out operations. -/
inductive AggErr where
  | aggregate (failures : List (String × String)) : AggErr
deriving DecidableEq, Repr

/-- Embedding of `PatchAgentConfigs` (manage.go): run the loop over the
detected agents, then fail with the aggregate of the collected per-type
errors when any exist. -/
def PatchAgentConfigs (agents : List (String × AgentSpec))
    (detected : List String) (server : MCPServer)
    (files : List (String × AgentFile)) :
    List (String × AgentFile) × Except AggErr Unit :=
  match addServerLoop agents detected server files with
  | (fs', errs) =>
    (fs', if errs.isEmpty then .ok () else .error (.aggregate errs))

/-- Embedding of `RemoveServerFromAgentConfigs` (manage.go): run the
removal loop over the detected agents, then fail with the aggregate of the
collected per-type errors when any exist. -/
def RemoveServerFromAgentConfigs (agents : List (String × AgentSpec))
    (detected : List String) (serverName : String)
    (files : List (String × AgentFile)) :
    List (String × AgentFile) × Except AggErr Unit :=
  match removeServerLoop agents detected serverName files with
  | (fs', errs) =>
    (fs', if errs.isEmpty then .ok () else .error (.aggregate errs))

/-- The detected agents whose patch fails, with each failure's cause, in
loop order. -/
def fanoutFailures (agents : List (String × AgentSpec)) (server : MCPServer)
    (files : List (String × AgentFile)) (detected : List String) :
    List (String × String) :=
  detected.filterMap (fun a =>
    match (AddServerToAgent agents a server (getFileD files a)).2 with
    | .error e => some (a, e)
    | .ok _ => none)

/-- The detected agents whose removal fails, with each failure's cause, in
loop order. -/
def removeFanoutFailures (agents : List (String × AgentSpec))
    (serverName : String) (files : List (String × AgentFile))
    (detected : List String) : List (String × String) :=
  detected.filterMap (fun a =>
    match (RemoveServerFromAgent agents a serverName (getFileD files a)).2 with
    | .error e => some (a, e)
    | .ok _ => none)

theorem AddServerToAgent_error_file (agents : List (String × AgentSpec))
    (agentType : String) (server : MCPServer) (file : AgentFile) (e : String)
    (h : (AddServerToAgent agents agentType server file).2 = .error e) :
    (AddServerToAgent agents agentType server file).1 = file := by
  rcases hg : getAgent agents agentType with _ | spec
  · simp [AddServerToAgent, hg]
  · rcases hl : LoadConfig spec file with e2 | config
    · simp [AddServerToAgent, AddMCPServer, hg, hl]
    · exfalso
      simp [AddServerToAgent, AddMCPServer, hg, hl] at h

theorem addServerLoop_spec (agents : List (String × AgentSpec))
    (server : MCPServer) :
    ∀ (detected : List String) (files : List (String × AgentFile)),
      detected.Nodup →
      (∀ a ∈ detected,
        getFileD (addServerLoop agents detected server files).1 a =
          (AddServerToAgent agents a server (getFileD files a)).1) ∧
      (∀ a, a ∉ detected →
        getFileD (addServerLoop agents detected server files).1 a =
          getFileD files a) ∧
      (addServerLoop agents detected server files).2 =
        fanoutFailures agents server files detected := by
  intro detected
  induction detected with
  | nil =>
    intro files _
    exact ⟨fun a ha => absurd ha (List.not_mem_nil a), fun a _ => rfl, rfl⟩
  | cons d rest ih =>
    intro files hnd
    have hd : d ∉ rest := (List.nodup_cons.mp hnd).1
    have hrest : rest.Nodup := (List.nodup_cons.mp hnd).2
    rcases hop : AddServerToAgent agents d server (getFileD files d) with ⟨f', r⟩
    cases r with
    | ok u =>
      cases u
      obtain ⟨ih1, ih2, ih3⟩ := ih (setFile files d f') hrest
      have hstep : addServerLoop agents (d :: rest) server files =
          addServerLoop agents rest server (setFile files d f') := by
        simp only [addServerLoop, hop]
      have hpres : ∀ a ∈ rest,
          getFileD (setFile files d f') a = getFileD files a := by
        intro a ha
        have hne : a ≠ d := fun h => hd (h ▸ ha)
        rw [getFileD_setFile, if_neg hne]
      refine ⟨?_, ?_, ?_⟩
      · intro a ha
        rw [hstep]
        rcases List.mem_cons.mp ha with h | h
        · subst h
          rw [ih2 a hd, getFileD_setFile, if_pos rfl, hop]
        · rw [ih1 a h, hpres a h]
      · intro a ha
        have hne : a ≠ d := fun h => ha (h ▸ List.mem_cons_self d rest)
        have harest : a ∉ rest := fun h => ha (List.mem_cons_of_mem d h)
        rw [hstep, ih2 a harest, getFileD_setFile, if_neg hne]
      · rw [hstep, ih3]
        unfold fanoutFailures
        rw [List.filterMap_cons]
        have : (AddServerToAgent agents d server (getFileD files d)).2 =
            .ok () := by rw [hop]
        rw [this]
        exact List.filterMap_congr (fun a ha => by rw [hpres a ha])
    | error e =>
      obtain ⟨ih1, ih2, ih3⟩ := ih files hrest
      have hstep : addServerLoop agents (d :: rest) server files =
          ((addServerLoop agents rest server files).1,
           (d, e) :: (addServerLoop agents rest server files).2) := by
        simp only [addServerLoop, hop]
      refine ⟨?_, ?_, ?_⟩
      · intro a ha
        rw [hstep]
        rcases List.mem_cons.mp ha with h | h
        · subst h
          have hfile : (AddServerToAgent agents a server (getFileD files a)).1 =
              getFileD files a :=
            AddServerToAgent_error_file agents a server (getFileD files a) e
              (by rw [hop])
          rw [ih2 a hd, hop] at *
          rw [hop] at hfile
          exact hfile.symm
        · exact ih1 a h
      · intro a ha
        have harest : a ∉ rest := fun h => ha (List.mem_cons_of_mem d h)
        rw [hstep]
        exact ih2 a harest
      · rw [hstep, ih3]
        unfold fanoutFailures
        rw [List.filterMap_cons]
        have : (AddServerToAgent agents d server (getFileD files d)).2 =
            .error e := by rw [hop]
        rw [this]

theorem RemoveServerFromAgent_error_file (agents : List (String × AgentSpec))
    (agentType serverName : String) (file : AgentFile) (e : String)
    (h : (RemoveServerFromAgent agents agentType serverName file).2 = .error e) :
    (RemoveServerFromAgent agents agentType serverName file).1 = file := by
  rcases hg : getAgent agents agentType with _ | spec
  · simp [RemoveServerFromAgent, hg]
  · rcases hl : LoadConfig spec file with e2 | config
    · simp [RemoveServerFromAgent, RemoveMCPServer, hg, hl]
    · exfalso
      rcases hms : getField config "mcpServers" with _ | v
      · simp [RemoveServerFromAgent, RemoveMCPServer, hg, hl, hms] at h
      · cases v <;>
          simp [RemoveServerFromAgent, RemoveMCPServer, hg, hl, hms] at h

theorem removeServerLoop_spec (agents : List (String × AgentSpec))
    (serverName : String) :
    ∀ (detected : List String) (files : List (String × AgentFile)),
      detected.Nodup →
      (∀ a ∈ detected,
        getFileD (removeServerLoop agents detected serverName files).1 a =
          (RemoveServerFromAgent agents a serverName (getFileD files a)).1) ∧
      (∀ a, a ∉ detected →
        getFileD (removeServerLoop agents detected serverName files).1 a =
          getFileD files a) ∧
      (removeServerLoop agents detected serverName files).2 =
        removeFanoutFailures agents serverName files detected := by
  intro detected
  induction detected with
  | nil =>
    intro files _
    exact ⟨fun a ha => absurd ha (List.not_mem_nil a), fun a _ => rfl, rfl⟩
  | cons d rest ih =>
    intro files hnd
    have hd : d ∉ rest := (List.nodup_cons.mp hnd).1
    have hrest : rest.Nodup := (List.nodup_cons.mp hnd).2
    rcases hop : RemoveServerFromAgent agents d serverName (getFileD files d)
      with ⟨f', r⟩
    cases r with
    | ok u =>
      cases u
      obtain ⟨ih1, ih2, ih3⟩ := ih (setFile files d f') hrest
      have hstep : removeServerLoop agents (d :: rest) serverName files =
          removeServerLoop agents rest serverName (setFile files d f') := by
        simp only [removeServerLoop, hop]
      have hpres : ∀ a ∈ rest,
          getFileD (setFile files d f') a = getFileD files a := by
        intro a ha
        have hne : a ≠ d := fun h => hd (h ▸ ha)
        rw [getFileD_setFile, if_neg hne]
      refine ⟨?_, ?_, ?_⟩
      · intro a ha
        rw [hstep]
        rcases List.mem_cons.mp ha with h | h
        · subst h
          rw [ih2 a hd, getFileD_setFile, if_pos rfl, hop]
        · rw [ih1 a h, hpres a h]
      · intro a ha
        have hne : a ≠ d := fun h => ha (h ▸ List.mem_cons_self d rest)
        have harest : a ∉ rest := fun h => ha (List.mem_cons_of_mem d h)
        rw [hstep, ih2 a harest, getFileD_setFile, if_neg hne]
      · rw [hstep, ih3]
        unfold removeFanoutFailures
        rw [List.filterMap_cons]
        have : (RemoveServerFromAgent agents d serverName (getFileD files d)).2 =
            .ok () := by rw [hop]
        rw [this]
        exact List.filterMap_congr (fun a ha => by rw [hpres a ha])
    | error e =>
      obtain ⟨ih1, ih2, ih3⟩ := ih files hrest
      have hstep : removeServerLoop agents (d :: rest) serverName files =
          ((removeServerLoop agents rest serverName files).1,
           (d, e) :: (removeServerLoop agents rest serverName files).2) := by
        simp only [removeServerLoop, hop]
      refine ⟨?_, ?_, ?_⟩
      · intro a ha
        rw [hstep]
        rcases List.mem_cons.mp ha with h | h
        · subst h
          have hfile : (RemoveServerFromAgent agents a serverName
              (getFileD files a)).1 = getFileD files a :=
            RemoveServerFromAgent_error_file agents a serverName
              (getFileD files a) e (by rw [hop])
          rw [ih2 a hd, hop] at *
          rw [hop] at hfile
          exact hfile.symm
        · exact ih1 a h
      · intro a ha
        have harest : a ∉ rest := fun h => ha (List.mem_cons_of_mem d h)
        rw [hstep]
        exact ih2 a harest
      · rw [hstep, ih3]
        unfold removeFanoutFailures
        rw [List.filterMap_cons]
        have : (RemoveServerFromAgent agents d serverName (getFileD files d)).2 =
            .error e := by rw [hop]
        rw [this]

/-- C9: each fan-out operation — the add patch and the removal — attempts
every detected agent even after a failure: each detected agent's final
config file is exactly the result of applying that operation to the
agent's own initial file, so agents whose application succeeded retain
their completed mutation; and each call returns a single aggregated error
naming each failing agent type with its cause exactly when at least one
agent fails. -/
theorem C9_fanout (agents : List (String × AgentSpec)) (detected : List String)
    (server : MCPServer) (serverName : String)
    (files rfiles : List (String × AgentFile))
    (hnd : detected.Nodup) :
    (∀ a ∈ detected,
      getFileD (PatchAgentConfigs agents detected server files).1 a =
        (AddServerToAgent agents a server (getFileD files a)).1) ∧
    ((PatchAgentConfigs agents detected server files).2 =
      (if (fanoutFailures agents server files detected).isEmpty then .ok ()
       else .error (.aggregate (fanoutFailures agents server files detected)))) ∧
    (∀ a ∈ detected,
      getFileD (RemoveServerFromAgentConfigs agents detected serverName
          rfiles).1 a =
        (RemoveServerFromAgent agents a serverName (getFileD rfiles a)).1) ∧
    ((RemoveServerFromAgentConfigs agents detected serverName rfiles).2 =
      (if (removeFanoutFailures agents serverName rfiles detected).isEmpty
       then .ok ()
       else .error (.aggregate
         (removeFanoutFailures agents serverName rfiles detected)))) := by
  obtain ⟨h1, h2, h3⟩ := addServerLoop_spec agents server detected files hnd
  obtain ⟨g1, g2, g3⟩ :=
    removeServerLoop_spec agents serverName detected rfiles hnd
  refine ⟨?_, ?_, ?_, ?_⟩
  · intro a ha
    have : (PatchAgentConfigs agents detected server files).1 =
        (addServerLoop agents detected server files).1 := by
      unfold PatchAgentConfigs
      rcases addServerLoop agents detected server files with ⟨fs', errs⟩
      rfl
    rw [this]
    exact h1 a ha
  · have : (PatchAgentConfigs agents detected server files).2 =
        (if (addServerLoop agents detected server files).2.isEmpty then .ok ()
         else .error (.aggregate (addServerLoop agents detected server files).2)) := by
      unfold PatchAgentConfigs
      rcases addServerLoop agents detected server files with ⟨fs', errs⟩
      rfl
    rw [this, h3]
  · intro a ha
    have : (RemoveServerFromAgentConfigs agents detected serverName rfiles).1 =
        (removeServerLoop agents detected serverName rfiles).1 := by
      unfold RemoveServerFromAgentConfigs
      rcases removeServerLoop agents detected serverName rfiles with ⟨fs', errs⟩
      rfl
    rw [this]
    exact g1 a ha
  · have : (RemoveServerFromAgentConfigs agents detected serverName rfiles).2 =
        (if (removeServerLoop agents detected serverName rfiles).2.isEmpty
         then .ok ()
         else .error (.aggregate
           (removeServerLoop agents detected serverName rfiles).2)) := by
      unfold RemoveServerFromAgentConfigs
      rcases removeServerLoop agents detected serverName rfiles with ⟨fs', errs⟩
      rfl
    rw [this, g3]

/-- An agent spec whose config rule yields no path, so every adapter
operation on it fails. -/
def specNoPath : AgentSpec :=
  { Name := "BrokenAgent", AgentType := "bad", Global := false, Config := none }

/-- The registry for the C9 witness: one healthy and one broken agent. -/
def agentsW2 : List (String × AgentSpec) :=
  [("ok1", specWithPath), ("bad", specNoPath)]

/-- The installation being fanned out in the C9 witness. -/
def serverW : MCPServer :=
  { Name := "srv", Version := "1.0.0", Repository := "r",
    InstallPath := "/data/srv/1.0.0", Installed := true,
    Command := "node", Args := ["/data/srv/1.0.0/x.js"], Env := [] }

/-- The prior per-agent files for the removal half of the C9 witness: the
healthy agent's config already carries the entry to remove. -/
def rfilesW : List (String × AgentFile) :=
  [("ok1", .stored
    [("mcpServers", .jobj [("srv", .jobj [("command", .jstr "node")])]),
     ("other", .jstr "keep")])]

/-- Witness for C9: with two detected agents whose second operation fails,
the first agent's file holds the completed mutation (the new entry for the
add, the deleted entry for the removal) while each call aggregates the
second agent's failure. -/
theorem C9_fanout_witness :
    (["ok1", "bad"] : List String).Nodup ∧
    getFileD (PatchAgentConfigs agentsW2 ["ok1", "bad"] serverW []).1 "ok1" =
      (AddServerToAgent agentsW2 "ok1" serverW (getFileD [] "ok1")).1 ∧
    (PatchAgentConfigs agentsW2 ["ok1", "bad"] serverW []).2 =
      .error (.aggregate [("bad", "no config path available")]) ∧
    getFileD (RemoveServerFromAgentConfigs agentsW2 ["ok1", "bad"] "srv"
        rfilesW).1 "ok1" =
      (RemoveServerFromAgent agentsW2 "ok1" "srv" (getFileD rfilesW "ok1")).1 ∧
    (RemoveServerFromAgent agentsW2 "ok1" "srv" (getFileD rfilesW "ok1")).1 =
      .stored [("mcpServers", .jobj []), ("other", .jstr "keep")] ∧
    (RemoveServerFromAgentConfigs agentsW2 ["ok1", "bad"] "srv" rfilesW).2 =
      .error (.aggregate [("bad", "no config path available")]) := by
  have h := C9_fanout agentsW2 ["ok1", "bad"] serverW "srv" [] rfilesW
    (by decide)
  refine ⟨by decide, h.1 "ok1" (by decide), ?_, h.2.2.1 "ok1" (by decide),
    rfl, ?_⟩
  · rw [h.2.1]
    rfl
  · rw [h.2.2.2]
    rfl

end Mcpv
